import Mathlib

/-!
Verification of the Hearts trick-taking engine (card_games/hearts_game.py).

The Python source is shallowly embedded below: pure fragments of the game
become Lean functions over explicit state values.  Cards are pairs of a
numeric rank and a suit; the numeric rank is the ace-high `rank_num` of the
cards library (joker X = 0, spot cards 2..10, J = 11, Q = 12, K = 13, A = 14).
Scores are integers (Python ints), card containers are Lean lists in the same
order as the Python lists they model.
-/

namespace HeartsGame

/-- Suit of a card: clubs, diamonds, hearts, spades. -/
inductive Suit where
  | C
  | D
  | H
  | S
deriving DecidableEq

/-- Modelled from the spec: the cards library (not under src/) defines a Card
as an immutable rank/suit pair, equal iff rank and suit match, with a numeric
`rank_num` ordering (ace high).  The rank field below is that `rank_num`:
0 for the joker rank X, 2..10 for spot cards, 11 = J, 12 = Q, 13 = K, 14 = A. -/
structure Card where
  rank : Nat
  suit : Suit
deriving DecidableEq

/-- The queen of spades, the string constant QS of the source. -/
def qs : Card := ⟨12, Suit.S⟩

/-- The two of clubs (used as a concrete bonus card in examples). -/
def twoC : Card := ⟨2, Suit.C⟩

/-- Heart-scoring schemes of the heart-score option (hearts_game.py,
handle_opt_score). -/
inductive HeartScheme where
  | one
  | face
  | pips
  | rank
deriving DecidableEq

/-- Moon-scoring policies of the moon option. -/
inductive MoonPolicy where
  | old
  | new
  | auto
deriving DecidableEq

/-- Points scored by a heart of a given rank under each scheme, as built by
handle_opt_score: the base dict gives one point per rank; face updates
J = 2, Q = 3, K = 4, A = 5; pips is the rank index capped at 10 with A = 10;
rank is the rank index with A = 14. -/
def heartPoints : HeartScheme → Nat → Nat
  | HeartScheme.one, _ => 1
  | HeartScheme.face, r =>
      if r = 14 then 5 else if r = 13 then 4 else if r = 12 then 3 else if r = 11 then 2 else 1
  | HeartScheme.pips, r => if r = 14 then 10 else min 10 r
  | HeartScheme.rank, r => r

/-- Scoring-relevant option settings of a Hearts game, as fixed by
handle_opt_score and set_options: heart-score scheme, lady-score points,
joker-points flag, the optional bonus card, the no-tricks value, the moon
policy, the end threshold, and the max_score computed at setup. -/
structure GameConfig where
  heartScore : HeartScheme
  ladyPoints : Nat
  jokerPoints : Bool
  bonus : Option Card
  noTricks : Nat
  moon : MoonPolicy
  endScore : Int
  maxScore : Int

/-- Counters accumulated by the card loop of score_players for one player:
number of hearts, their points, queens of spades, jokers, and whether the
configured bonus card was seen. -/
structure PileCounts where
  hearts : Nat
  heartPts : Nat
  lady : Nat
  jokers : Nat
  bonusFound : Bool
deriving DecidableEq

/-- The card loop of score_players (lines 694-703): each taken card is
classified by the if/elif chain -- heart first, then queen of spades, then
joker rank, then the configured bonus card. -/
def countPile (cfg : GameConfig) : List Card → PileCounts
  | [] => ⟨0, 0, 0, 0, false⟩
  | c :: rest =>
    let acc := countPile cfg rest
    if c.suit = Suit.H then
      { acc with hearts := acc.hearts + 1,
                 heartPts := acc.heartPts + heartPoints cfg.heartScore c.rank }
    else if c = qs then
      { acc with lady := acc.lady + 1 }
    else if c.rank = 0 then
      { acc with jokers := acc.jokers + 1 }
    else if some c = cfg.bonus then
      { acc with bonusFound := true }
    else
      acc

/-- The unadjusted points of score_players line 705-707: heart points plus
lady_points per queen of spades taken, plus one per joker when joker-points
is set. -/
def rawPoints (cfg : GameConfig) (pile : List Card) : Int :=
  let k := countPile cfg pile
  (k.heartPts : Int) + (cfg.ladyPoints : Int) * (k.lady : Int) +
    (if cfg.jokerPoints then (k.jokers : Int) else 0)

/-- Lines 708-709 of score_players: when a bonus card is configured and was
found among the taken cards, ten points are removed, floored at zero. -/
def playerPoints (cfg : GameConfig) (pile : List Card) : Int :=
  if cfg.bonus.isSome ∧ (countPile cfg pile).bonusFound = true then
    max 0 (rawPoints cfg pile - 10)
  else
    rawPoints cfg pile

/-- Line 725 of score_players: a player shot the moon when their points equal
max_score and they hold the bonus card (or no bonus card is configured). -/
def isShooter (cfg : GameConfig) (pile : List Card) : Bool :=
  decide (playerPoints cfg pile = cfg.maxScore) &&
    ((countPile cfg pile).bonusFound || cfg.bonus.isNone)

/-- Lines 728-732 of score_players: a player with no taken cards and a
non-zero no-tricks option scores minus the no-tricks value, replacing the
card-based points. -/
def roundPointsFor (cfg : GameConfig) (pile : List Card) : Int :=
  if pile = [] ∧ cfg.noTricks ≠ 0 then -(cfg.noTricks : Int)
  else playerPoints cfg pile

/-- The shooter recorded by score_players: the loop overwrites the shooter
name, so the last player satisfying the condition is kept. -/
def shooterIndex (cfg : GameConfig) (piles : List (List Card)) : Option Nat :=
  piles.enum.foldl (fun acc ip => if isShooter cfg ip.2 then some ip.1 else acc) none

/-- Hearts.score_players: the per-player round points dictionary and the
shooter, if any, from the taken piles (in player order). -/
def scorePlayers (cfg : GameConfig) (piles : List (List Card)) : List Int × Option Nat :=
  (piles.map (roundPointsFor cfg), shooterIndex cfg piles)

/-- Python max over a non-empty list of scores (score_round line 743);
zero for an empty list, which does not arise. -/
def maxOf : List Int → Int
  | [] => 0
  | x :: xs => xs.foldl max x

/-- The moon value of score_round line 742: max_score plus ten when a bonus
card is configured. -/
def moonValue (cfg : GameConfig) : Int :=
  cfg.maxScore + (if cfg.bonus.isSome then 10 else 0)

/-- The old-policy loop of score_round lines 745-749: the player at index s
scores zero, every other player gains the moon value.  The index argument i
tracks the position of the head of the remaining list. -/
def moonOldAdjust (mv : Int) (s i : Nat) : List Int → List Int
  | [] => []
  | p :: rest => (if i = s then 0 else p + mv) :: moonOldAdjust mv s (i + 1) rest

/-- Hearts.score_round lines 741-751: when a shooter exists, apply the old
adjustment when the policy is old, or when it is auto and the maximum current
cumulative score plus the moon value stays below the end threshold; otherwise
set the shooter round points to minus the moon value. -/
def moonAdjust (cfg : GameConfig) (scores rpts : List Int) (shooter : Option Nat) : List Int :=
  match shooter with
  | none => rpts
  | some s =>
    if cfg.moon = MoonPolicy.old ∨
        (cfg.moon = MoonPolicy.auto ∧ maxOf scores + moonValue cfg < cfg.endScore) then
      moonOldAdjust (moonValue cfg) s 0 rpts
    else
      rpts.set s (-(moonValue cfg))

/-- Hearts.score_round lines 753-755: cumulative scores gain the adjusted
round points, floored at zero. -/
def scoreRound (cfg : GameConfig) (scores : List Int) (piles : List (List Card)) : List Int :=
  let sp := scorePlayers cfg piles
  let adjusted := moonAdjust cfg scores sp.1 sp.2
  List.zipWith (fun sc rp => max (sc + rp) 0) scores adjusted

/-- The max_score of handle_opt_score: the sum of the heart-points dict values
(one entry per heart rank 2..14), plus lady points, plus the joker count when
joker-points is set, minus ten when a bonus card is configured. -/
def maxScoreFor (cfg : GameConfig) (numJokers : Nat) : Int :=
  (((List.range 13).map (fun i => heartPoints cfg.heartScore (i + 2))).sum : Int) +
    (cfg.ladyPoints : Int) + (if cfg.jokerPoints then (numJokers : Int) else 0) -
    (if cfg.bonus.isSome then 10 else 0)

/-- Membership of the bonus card in a pile decides the bonusFound counter,
provided the configured bonus card is not itself caught by an earlier branch
of the if/elif chain (not a heart, not the queen of spades, not joker rank). -/
lemma countPile_bonusFound_iff (cfg : GameConfig) (b : Card) (hb : cfg.bonus = some b)
    (h1 : b.suit ≠ Suit.H) (h2 : b ≠ qs) (h3 : b.rank ≠ 0) (pile : List Card) :
    (countPile cfg pile).bonusFound = true ↔ b ∈ pile := by
  induction pile with
  | nil => simp [countPile]
  | cons c rest ih =>
    by_cases hcH : c.suit = Suit.H
    · have hne : b ≠ c := fun h => h1 (h ▸ hcH)
      simp [countPile, hcH, ih, hne]
    · by_cases hcq : c = qs
      · have hne : b ≠ c := hcq ▸ h2
        simp [countPile, hcH, hcq, qs, ih, hne, h2]
        intro h
        exact absurd h h2
      · by_cases hcx : c.rank = 0
        · have hne : b ≠ c := fun h => h3 (h ▸ hcx)
          simp [countPile, hcH, hcq, hcx, ih, hne]
        · by_cases hcb : some c = cfg.bonus
          · have hcb' : c = b := by
              rw [hb] at hcb
              exact Option.some.inj hcb
            subst hcb'
            simp [countPile, hcH, hcq, hcx, hcb]
          · have hne : b ≠ c := by
              intro h
              exact hcb (by rw [hb, h])
            simp [countPile, hcH, hcq, hcx, hcb, ih, hne]

/-- Claim C1 (amended): when a bonus card is configured (and is not itself a
penalty-classified card), ten points are subtracted, floored at zero, exactly
when the bonus card IS among the player's taken cards; when it is absent no
deduction is applied. -/
theorem bonus_deduction_amended (cfg : GameConfig) (pile : List Card) (b : Card)
    (hb : cfg.bonus = some b) (h1 : b.suit ≠ Suit.H) (h2 : b ≠ qs) (h3 : b.rank ≠ 0) :
    playerPoints cfg pile =
      if b ∈ pile then max 0 (rawPoints cfg pile - 10) else rawPoints cfg pile := by
  have hfound := countPile_bonusFound_iff cfg b hb h1 h2 h3 pile
  by_cases hmem : b ∈ pile
  · rw [if_pos hmem]
    have : (countPile cfg pile).bonusFound = true := hfound.mpr hmem
    simp [playerPoints, this, hb]
  · rw [if_neg hmem]
    have : ¬ (countPile cfg pile).bonusFound = true := fun h => hmem (hfound.mp h)
    simp [playerPoints, this]

/-- Configuration used in the claim C1 counterexample: default scoring with
the two of clubs configured as the bonus card. -/
def ceCfg : GameConfig :=
  { heartScore := HeartScheme.one, ladyPoints := 13, jokerPoints := false,
    bonus := some twoC, noTricks := 0, moon := MoonPolicy.old,
    endScore := 100, maxScore := 16 }

/-- Claim C1 counterexample: with the two of clubs configured as bonus card, a
pile containing the queen of spades AND the bonus card scores 3 = max 0 (13 - 10)
-- the ten points are subtracted precisely when the bonus card IS taken --
while the pile without the bonus card scores its raw 13 points undeduced.
The claim states the opposite direction for both cases. -/
theorem bonus_deduction_counterexample :
    playerPoints ceCfg [qs, twoC] = 3 ∧ rawPoints ceCfg [qs, twoC] = 13 ∧
      twoC ∈ [qs, twoC] ∧ playerPoints ceCfg [qs] = 13 ∧ ¬ twoC ∈ [qs] := by
  decide

/-- Witness for claim C1: the amended theorem applied to the concrete
configuration and pile of the counterexample. -/
theorem bonus_deduction_witness :
    ceCfg.bonus = some twoC ∧
      playerPoints ceCfg [qs, twoC] = max 0 (rawPoints ceCfg [qs, twoC] - 10) := by
  have h := bonus_deduction_amended ceCfg [qs, twoC] twoC rfl
    (by decide) (by decide) (by decide)
  refine ⟨rfl, ?_⟩
  rw [h, if_pos (by decide : twoC ∈ [qs, twoC])]

/-- Configuration used in the claim C8 witness: default scoring with
no-tricks set to five. -/
def ntCfg : GameConfig :=
  { heartScore := HeartScheme.one, ladyPoints := 13, jokerPoints := false,
    bonus := none, noTricks := 5, moon := MoonPolicy.old,
    endScore := 100, maxScore := 26 }

/-- Claim C8: a player whose taken pile is empty scores exactly minus the
configured no-tricks value when it is non-zero -- the card-based computation
is replaced, not added to -- and every player's round points are a function
of that player's own pile alone. -/
theorem no_tricks_override (cfg : GameConfig) (piles : List (List Card)) (i : Nat)
    (hempty : piles[i]? = some []) (hnt : cfg.noTricks ≠ 0) :
    (scorePlayers cfg piles).1[i]? = some (-(cfg.noTricks : Int)) ∧
    ∀ j : Nat, (scorePlayers cfg piles).1[j]? = (piles[j]?).map (roundPointsFor cfg) := by
  constructor
  · simp [scorePlayers, List.getElem?_map, hempty, roundPointsFor, hnt]
  · intro j
    simp [scorePlayers, List.getElem?_map]

/-- Witness for claim C8: with no-tricks five, the second player holds an
empty pile and scores minus five while the first player keeps the card-based
round points of their own pile. -/
theorem no_tricks_override_witness :
    (scorePlayers ntCfg [[qs], []]).1[1]? = some (-5) ∧
    (scorePlayers ntCfg [[qs], []]).1[0]? = some (roundPointsFor ntCfg [qs]) := by
  have h := no_tricks_override ntCfg [[qs], []] 1 rfl (by decide)
  refine ⟨by simpa using h.1, by simpa using h.2 0⟩

/-- Element-wise description of the old-policy moon loop: position j of the
output is zero when it is the shooter position, and gains the moon value
otherwise. -/
lemma moonOldAdjust_getElem? (mv : Int) (s : Nat) :
    ∀ (rpts : List Int) (i j : Nat),
      (moonOldAdjust mv s i rpts)[j]? =
        (rpts[j]?).map (fun p => if i + j = s then 0 else p + mv) := by
  intro rpts
  induction rpts with
  | nil =>
    intro i j
    simp [moonOldAdjust]
  | cons p rest ih =>
    intro i j
    cases j with
    | zero =>
      simp [moonOldAdjust]
    | succ j' =>
      have h := ih (i + 1) j'
      simp only [moonOldAdjust, List.getElem?_cons_succ, h]
      have e : i + 1 + j' = i + (j' + 1) := by omega
      rw [e]

/-- Claim C4 (amended): with a recorded shooter, the old policy zeroes the
shooter and adds the moon value to everyone else; the new policy sets the
shooter to minus the moon value and leaves everyone else unchanged; auto
behaves as old exactly when the maximum current cumulative score (over all
players, the shooter included) plus the moon value stays strictly below the
end threshold, and as new otherwise. -/
theorem moon_scoring_amended (cfg : GameConfig) (scores : List Int) (piles : List (List Card))
    (s : Nat) (hsh : (scorePlayers cfg piles).2 = some s)
    (hs : s < (scorePlayers cfg piles).1.length) :
    ((cfg.moon = MoonPolicy.old ∨
        (cfg.moon = MoonPolicy.auto ∧ maxOf scores + moonValue cfg < cfg.endScore)) →
      (moonAdjust cfg scores (scorePlayers cfg piles).1 (scorePlayers cfg piles).2)[s]? =
          some 0 ∧
      ∀ i : Nat, i ≠ s →
        (moonAdjust cfg scores (scorePlayers cfg piles).1 (scorePlayers cfg piles).2)[i]? =
          ((scorePlayers cfg piles).1[i]?).map (fun p => p + moonValue cfg)) ∧
    ((cfg.moon = MoonPolicy.new ∨
        (cfg.moon = MoonPolicy.auto ∧ ¬ maxOf scores + moonValue cfg < cfg.endScore)) →
      (moonAdjust cfg scores (scorePlayers cfg piles).1 (scorePlayers cfg piles).2)[s]? =
          some (-(moonValue cfg)) ∧
      ∀ i : Nat, i ≠ s →
        (moonAdjust cfg scores (scorePlayers cfg piles).1 (scorePlayers cfg piles).2)[i]? =
          (scorePlayers cfg piles).1[i]?) := by
  rw [hsh]
  constructor
  · intro hcond
    rw [moonAdjust, if_pos hcond]
    constructor
    · rw [moonOldAdjust_getElem?]
      simp [List.getElem?_eq_getElem hs]
    · intro i hi
      rw [moonOldAdjust_getElem?]
      have : ¬ 0 + i = s := by omega
      simp only [this, if_false]
  · intro hcond
    have hneg : ¬ (cfg.moon = MoonPolicy.old ∨
        (cfg.moon = MoonPolicy.auto ∧ maxOf scores + moonValue cfg < cfg.endScore)) := by
      rcases hcond with h | ⟨h1, h2⟩
      · rintro (h' | ⟨h', _⟩) <;> rw [h] at h' <;> exact MoonPolicy.noConfusion h'
      · rintro (h' | ⟨_, h'⟩)
        · rw [h1] at h'
          exact MoonPolicy.noConfusion h'
        · exact h2 h'
    rw [moonAdjust, if_neg hneg]
    constructor
    · exact List.getElem?_set_eq_of_lt _ hs
    · intro i hi
      exact List.getElem?_set_ne (fun h => hi h.symm)

/-- The thirteen heart cards of the deck, ranks 2 through 14. -/
def hearts13 : List Card := (List.range 13).map (fun i => ⟨i + 2, Suit.H⟩)

/-- A taken pile holding every penalty card of the default deck: all thirteen
hearts and the queen of spades. -/
def moonPile : List Card := hearts13 ++ [qs]

/-- Default configuration with the old moon policy (used in the C4 witness). -/
def moonCfg : GameConfig :=
  { heartScore := HeartScheme.one, ladyPoints := 13, jokerPoints := false,
    bonus := none, noTricks := 0, moon := MoonPolicy.old,
    endScore := 100, maxScore := 26 }

/-- Default configuration with the auto moon policy (used in the C4
counterexample). -/
def autoCfg : GameConfig :=
  { heartScore := HeartScheme.one, ladyPoints := 13, jokerPoints := false,
    bonus := none, noTricks := 0, moon := MoonPolicy.auto,
    endScore := 100, maxScore := 26 }

/-- Claim C4 counterexample for the auto clause: the shooter holds the highest
cumulative score (90 against 10, end 100, moon value 26).  Applying the old
behaviour would push nobody to the end threshold (the shooter scores zero this
round, 90 stays 90, the other player reaches 36), so the claim mandates the
old behaviour, yet the code compares max(scores) + moon value = 116 against
the threshold and applies the new behaviour instead. -/
theorem moon_auto_counterexample :
    scorePlayers autoCfg [moonPile, []] = ([26, 0], some 0) ∧
    moonAdjust autoCfg [90, 10] [26, 0] (some 0) = [-26, 0] ∧
    max ((90 : Int) + 0) 0 < 100 ∧ max ((10 : Int) + 26) 0 < 100 ∧
    moonOldAdjust (moonValue autoCfg) 0 0 [26, 0] = [0, 26] ∧
    ([-26, 0] : List Int) ≠ [0, 26] := by
  decide

/-- Witness for claim C4: the amended theorem applied to a concrete game in
which the first player took every penalty card under the old policy. -/
theorem moon_scoring_witness :
    (scorePlayers moonCfg [moonPile, []]).2 = some 0 ∧
    (moonAdjust moonCfg [0, 0] (scorePlayers moonCfg [moonPile, []]).1
        (scorePlayers moonCfg [moonPile, []]).2)[0]? = some 0 ∧
    (moonAdjust moonCfg [0, 0] (scorePlayers moonCfg [moonPile, []]).1
        (scorePlayers moonCfg [moonPile, []]).2)[1]? =
      ((scorePlayers moonCfg [moonPile, []]).1[1]?).map (fun p => p + moonValue moonCfg) := by
  have h := moon_scoring_amended moonCfg [0, 0] [moonPile, []] 0 (by decide) (by decide)
  have h1 := h.1 (Or.inl rfl)
  exact ⟨by decide, h1.1, h1.2 1 (by decide)⟩

/-- Kitty policy from the extras option: no kitty (deck divides evenly), the
kitty goes with the first trick, or with the first trick containing a heart. -/
inductive KittyOpt where
  | noKitty
  | first
  | heart
deriving DecidableEq

/-- Mid-round state of a Hearts game as touched by trick_winner: the current
trick (in play order, head led), the index of the last player who played (an
integer, as in the source, where -1 aliases the last seat), the player count,
the per-seat taken piles, the undealt deck remainder (the kitty), the kitty
policy, the hearts-broken flag and the breaker card set. -/
structure HeartsState where
  trick : List Card
  playerIndex : Int
  numPlayers : Nat
  taken : List (List Card)
  deckCards : List Card
  kitty : KittyOpt
  heartsBroken : Bool
  breakers : List Card

/-- Python sorted(suit_cards, key = rank_num)[-1]: the element of maximal
rank, the later one on ties (stable sort puts it last). -/
def lastMaxByRank (l : List Card) (d : Card) : Card :=
  match l with
  | [] => d
  | x :: xs => xs.foldl (fun acc c => if acc.rank ≤ c.rank then c else acc) x

/-- The winning card of trick_winner lines 892-894: the highest card among
those matching the suit of the card led. -/
def winningCardOf : List Card → Card
  | [] => ⟨0, Suit.C⟩
  | t0 :: rest => lastMaxByRank ((t0 :: rest).filter (fun c => decide (c.suit = t0.suit))) t0

/-- Python list.index: position of the first occurrence. -/
def firstIndexOf : List Card → Card → Nat
  | [], _ => 0
  | x :: xs, a => if x = a then 0 else firstIndexOf xs a + 1

/-- Position of the winning card within the trick (line 895). -/
def trickCardIndex (trick : List Card) : Nat :=
  firstIndexOf trick (winningCardOf trick)

/-- The seat that played the i-th card of the trick: the leader is the seat
after the last player recorded in player_index, and seats advance with the
cards (line 897 of the source computes the winner seat this way). -/
def seatOfTrickCard (playerIndex : Int) (numPlayers : Nat) (i : Nat) : Nat :=
  ((playerIndex + 1 + (i : Int)) % (numPlayers : Int)).toNat

/-- The winner seat of trick_winner line 897. -/
def winnerSeat (playerIndex : Int) (numPlayers : Nat) (trick : List Card) : Nat :=
  seatOfTrickCard playerIndex numPlayers (trickCardIndex trick)

/-- The kitty condition of trick_winner lines 903-906, with the evaluation
Python gives the expression kitty_win or (the always-truthy string heart and
the list of hearts in the trick): the kitty is handed out when the deck holds
cards and either the policy is first or the trick contains a heart. -/
def kittyAwarded (s : HeartsState) : Bool :=
  decide (s.deckCards ≠ []) &&
    (decide (s.kitty = KittyOpt.first) || s.trick.any (fun c => decide (c.suit = Suit.H)))

/-- Hearts.trick_winner lines 889-917 (the mid-round part): find the winning
card and seat, move the trick (and the kitty when awarded) to the winner's
taken pile, update the hearts-broken flag from the breaker set, clear the
trick and store winner seat minus one in player_index (the round controller
then advances to the winner).  The end-of-round branch (scoring and redeal)
is modelled separately by scoreRound. -/
def trickWinner (s : HeartsState) : HeartsState :=
  if s.trick = [] then s
  else
    let w := winnerSeat s.playerIndex s.numPlayers s.trick
    let taken1 := s.taken.set w (s.taken.getD w [] ++ s.trick)
    let taken2 :=
      if kittyAwarded s = true then taken1.set w (taken1.getD w [] ++ s.deckCards) else taken1
    { s with
      trick := [],
      playerIndex := (w : Int) - 1,
      taken := taken2,
      deckCards := if kittyAwarded s = true then [] else s.deckCards,
      heartsBroken := s.heartsBroken || s.trick.any (fun c => decide (c ∈ s.breakers)) }

/-- Modelled from the spec: the Round Controller (the game frame, not under
src/) advances play to the seat after player_index, so this is the seat that
acts next after a state update. -/
def nextLeader (s : HeartsState) : Nat :=
  ((s.playerIndex + 1) % (s.numPlayers : Int)).toNat

/-- The hearts_broken assignment of Hearts.deal line 370. -/
def dealHeartsBroken (breakHearts allBreak : Bool) : Bool :=
  !(breakHearts || allBreak)

/-- The breaker set built by handle_opt_score lines 574-581: all hearts of
the deck, plus the queen of spades when all-break is set, plus the jokers of
the deck when all-break and joker-points are both set. -/
def breakersFor (deck : List Card) (allBreak jokerPoints : Bool) : List Card :=
  deck.filter (fun c => decide (c.suit = Suit.H)) ++
    (if allBreak then [qs] else []) ++
    (if allBreak && jokerPoints then deck.filter (fun c => decide (c.rank = 0)) else [])

/-- The hearts-broken update of trick_winner lines 913-915 as a function of
the previous flag and the trick. -/
def heartsBrokenStep (breakers : List Card) (b : Bool) (trick : List Card) : Bool :=
  b || trick.any (fun c => decide (c ∈ breakers))

/-- The hearts-broken flag after a sequence of resolved tricks within one
round, starting from the value set at the deal. -/
def roundBroken (breakers : List Card) (b0 : Bool) (tricks : List (List Card)) : Bool :=
  tricks.foldl (heartsBrokenStep breakers) b0

/-- A true hearts-broken flag survives any further tricks. -/
lemma roundBroken_true (br : List Card) (ts : List (List Card)) :
    roundBroken br true ts = true := by
  induction ts with
  | nil => rfl
  | cons t ts ih => simpa [roundBroken, heartsBrokenStep] using ih

/-- Claim C2 counterexample: with neither break-hearts nor all-break
configured (the default), the flag is TRUE immediately after the deal, not
false as the claim states for every configuration. -/
theorem hearts_broken_after_deal_counterexample :
    dealHeartsBroken false false = true := rfl

/-- Claim C2 (amended): after the deal the hearts-broken flag is false exactly
when break-hearts or all-break is configured; trick resolution computes the
new flag as old-flag or trick-meets-breakers, so the flag is monotone along
the tricks of a round and transitions false to true at most once, and only
when a breaker card is in the trick. -/
theorem hearts_broken_round_amended :
    (∀ bh ab : Bool, dealHeartsBroken bh ab = false ↔ (bh = true ∨ ab = true)) ∧
    (∀ s : HeartsState,
      (trickWinner s).heartsBroken = heartsBrokenStep s.breakers s.heartsBroken s.trick) ∧
    (∀ (br : List Card) (b0 : Bool) (ts ms : List (List Card)),
      roundBroken br b0 ts = true → roundBroken br b0 (ts ++ ms) = true) ∧
    (∀ (br : List Card) (b : Bool) (t : List Card),
      heartsBrokenStep br b t = true →
        b = true ∨ t.any (fun c => decide (c ∈ br)) = true) := by
  refine ⟨by decide, ?_, ?_, ?_⟩
  · intro s
    by_cases h : s.trick = []
    · simp [trickWinner, h, heartsBrokenStep]
    · simp [trickWinner, h, heartsBrokenStep]
  · intro br b0 ts ms h
    rw [roundBroken, List.foldl_append]
    rw [roundBroken] at h
    rw [h]
    exact roundBroken_true br ms
  · intro br b t h
    exact Bool.or_eq_true_iff.mp h

/-- Witness for claim C2: with break-hearts configured the flag starts false,
and once it is true it stays true across further tricks. -/
theorem hearts_broken_round_witness :
    dealHeartsBroken true false = false ∧ roundBroken [qs] true ([[qs]] ++ [[]]) = true := by
  have h := hearts_broken_round_amended
  exact ⟨(h.1 true false).mpr (Or.inl rfl), h.2.2.1 [qs] true [[qs]] [[]] (by decide)⟩

/-- Claim C9: resolving a trick turns the hearts-broken flag true exactly when
the old flag was already true or the trick meets the breaker set (so a breaker
in a trick with the flag already true leaves it unchanged), and the breaker
set consists of the hearts of the deck, plus the queen of spades when
all-break is set, plus the jokers of the deck when all-break and joker-points
are both set. -/
theorem breaker_set_idempotent :
    (∀ s : HeartsState,
      (trickWinner s).heartsBroken =
        (s.heartsBroken || s.trick.any (fun c => decide (c ∈ s.breakers)))) ∧
    (∀ (deck : List Card) (ab jp : Bool) (c : Card),
      c ∈ breakersFor deck ab jp ↔
        (c ∈ deck ∧ c.suit = Suit.H) ∨ (ab = true ∧ c = qs) ∨
          (ab = true ∧ jp = true ∧ c ∈ deck ∧ c.rank = 0)) := by
  constructor
  · intro s
    by_cases h : s.trick = []
    · simp [trickWinner, h]
    · simp [trickWinner, h]
  · intro deck ab jp c
    cases ab <;> cases jp <;>
      simp [breakersFor, List.mem_append, List.mem_filter]

/-- The winner seat is always a valid seat number. -/
lemma winnerSeat_lt (pI : Int) (n : Nat) (trick : List Card) (hn : 0 < n) :
    winnerSeat pI n trick < n := by
  unfold winnerSeat seatOfTrickCard
  have hn' : (0 : Int) < (n : Int) := by exact_mod_cast hn
  have h1 : 0 ≤ (pI + 1 + (trickCardIndex trick : Int)) % (n : Int) :=
    Int.emod_nonneg _ (by omega)
  have h2 : (pI + 1 + (trickCardIndex trick : Int)) % (n : Int) < (n : Int) :=
    Int.emod_lt_of_pos _ hn'
  omega

/-- The fold of the stable-sort maximum returns its seed or a list element. -/
lemma foldl_maxRank_mem : ∀ (l : List Card) (a : Card),
    l.foldl (fun acc c => if acc.rank ≤ c.rank then c else acc) a = a ∨
      l.foldl (fun acc c => if acc.rank ≤ c.rank then c else acc) a ∈ l := by
  intro l
  induction l with
  | nil =>
    intro a
    left
    rfl
  | cons x xs ih =>
    intro a
    rw [List.foldl_cons]
    rcases ih (if a.rank ≤ x.rank then x else a) with h | h
    · rw [h]
      by_cases hx : a.rank ≤ x.rank
      · right
        simp [hx]
      · left
        simp [hx]
    · right
      exact List.mem_cons_of_mem _ h

/-- The fold of the stable-sort maximum dominates its seed. -/
lemma foldl_maxRank_ge_init : ∀ (l : List Card) (a : Card),
    a.rank ≤ (l.foldl (fun acc c => if acc.rank ≤ c.rank then c else acc) a).rank := by
  intro l
  induction l with
  | nil =>
    intro a
    exact le_refl _
  | cons x xs ih =>
    intro a
    rw [List.foldl_cons]
    by_cases hx : a.rank ≤ x.rank
    · rw [if_pos hx]
      exact le_trans hx (ih x)
    · rw [if_neg hx]
      exact ih a

/-- The fold of the stable-sort maximum dominates every list element. -/
lemma foldl_maxRank_ge_mem : ∀ (l : List Card) (a c : Card), c ∈ l →
    c.rank ≤ (l.foldl (fun acc c => if acc.rank ≤ c.rank then c else acc) a).rank := by
  intro l
  induction l with
  | nil =>
    intro a c hc
    cases hc
  | cons x xs ih =>
    intro a c hc
    rw [List.foldl_cons]
    rcases List.mem_cons.mp hc with rfl | h
    · by_cases hx : a.rank ≤ c.rank
      · rw [if_pos hx]
        exact foldl_maxRank_ge_init xs c
      · rw [if_neg hx]
        exact le_trans (Nat.le_of_lt (Nat.lt_of_not_le hx)) (foldl_maxRank_ge_init xs a)
    · exact ih _ c h

/-- The winning card belongs to the led-suit cards of the trick. -/
lemma winningCardOf_mem_filter (t0 : Card) (rest : List Card) :
    winningCardOf (t0 :: rest) ∈ (t0 :: rest).filter (fun c => decide (c.suit = t0.suit)) := by
  have hfil : (t0 :: rest).filter (fun c => decide (c.suit = t0.suit)) =
      t0 :: rest.filter (fun c => decide (c.suit = t0.suit)) := by
    simp
  rw [winningCardOf, hfil, lastMaxByRank]
  rcases foldl_maxRank_mem (rest.filter (fun c => decide (c.suit = t0.suit))) t0 with h | h
  · rw [h]
    exact List.mem_cons_self _ _
  · exact List.mem_cons_of_mem _ h

/-- The winning card matches the suit led. -/
lemma winningCardOf_suit (t0 : Card) (rest : List Card) :
    (winningCardOf (t0 :: rest)).suit = t0.suit := by
  have h := List.mem_filter.mp (winningCardOf_mem_filter t0 rest)
  simpa using h.2

/-- The winning card is a card of the trick. -/
lemma winningCardOf_mem (t0 : Card) (rest : List Card) :
    winningCardOf (t0 :: rest) ∈ t0 :: rest :=
  List.mem_of_mem_filter (winningCardOf_mem_filter t0 rest)

/-- The winning card dominates every led-suit card of the trick. -/
lemma winningCardOf_max (t0 : Card) (rest : List Card) (c : Card)
    (hc : c ∈ t0 :: rest) (hsuit : c.suit = t0.suit) :
    c.rank ≤ (winningCardOf (t0 :: rest)).rank := by
  have hfil : (t0 :: rest).filter (fun c => decide (c.suit = t0.suit)) =
      t0 :: rest.filter (fun c => decide (c.suit = t0.suit)) := by
    simp
  have hcf : c ∈ (t0 :: rest).filter (fun c => decide (c.suit = t0.suit)) :=
    List.mem_filter.mpr ⟨hc, by simpa using hsuit⟩
  rw [hfil] at hcf
  rw [winningCardOf, hfil, lastMaxByRank]
  rcases List.mem_cons.mp hcf with rfl | h
  · exact foldl_maxRank_ge_init _ c
  · exact foldl_maxRank_ge_mem _ t0 c h

/-- Python list.index finds the element it is given. -/
lemma firstIndexOf_getElem? (l : List Card) (a : Card) (h : a ∈ l) :
    l[firstIndexOf l a]? = some a := by
  induction l with
  | nil => cases h
  | cons x xs ih =>
    by_cases hx : x = a
    · simp [firstIndexOf, hx]
    · have h' : a ∈ xs := by
        rcases List.mem_cons.mp h with rfl | h'
        · exact absurd rfl hx
        · exact h'
      simp [firstIndexOf, hx, ih h']

/-- Projections of the trick-winner update on a non-empty trick. -/
lemma trickWinner_playerIndex (s : HeartsState) (ht : s.trick ≠ []) :
    (trickWinner s).playerIndex = (winnerSeat s.playerIndex s.numPlayers s.trick : Int) - 1 ∧
    (trickWinner s).numPlayers = s.numPlayers := by
  simp [trickWinner, ht]

/-- Effect of trick resolution on the taken piles and the kitty: the winner's
pile gains the trick, then the kitty when it is awarded; every other pile is
untouched; the deck remainder is cleared exactly when the kitty is awarded. -/
lemma trickWinner_taken_winner (s : HeartsState) (ht : s.trick ≠ [])
    (hn : 0 < s.numPlayers) (htl : s.taken.length = s.numPlayers) :
    (trickWinner s).taken[winnerSeat s.playerIndex s.numPlayers s.trick]? =
      some ((s.taken.getD (winnerSeat s.playerIndex s.numPlayers s.trick) [] ++ s.trick) ++
        (if kittyAwarded s = true then s.deckCards else [])) ∧
    (∀ j : Nat, j ≠ winnerSeat s.playerIndex s.numPlayers s.trick →
      (trickWinner s).taken[j]? = s.taken[j]?) ∧
    (trickWinner s).deckCards = (if kittyAwarded s = true then [] else s.deckCards) := by
  have hw : winnerSeat s.playerIndex s.numPlayers s.trick < s.taken.length := by
    rw [htl]
    exact winnerSeat_lt _ _ _ hn
  have h1 : (s.taken.set (winnerSeat s.playerIndex s.numPlayers s.trick)
      (s.taken.getD (winnerSeat s.playerIndex s.numPlayers s.trick) [] ++ s.trick)).getD
      (winnerSeat s.playerIndex s.numPlayers s.trick) [] =
      s.taken.getD (winnerSeat s.playerIndex s.numPlayers s.trick) [] ++ s.trick := by
    rw [List.getD_eq_getElem?_getD, List.getElem?_set_eq_of_lt _ hw, Option.getD_some]
  have htaken : (trickWinner s).taken =
      (if kittyAwarded s = true then
        (s.taken.set (winnerSeat s.playerIndex s.numPlayers s.trick)
            (s.taken.getD (winnerSeat s.playerIndex s.numPlayers s.trick) [] ++ s.trick)).set
          (winnerSeat s.playerIndex s.numPlayers s.trick)
          ((s.taken.set (winnerSeat s.playerIndex s.numPlayers s.trick)
              (s.taken.getD (winnerSeat s.playerIndex s.numPlayers s.trick) [] ++
                s.trick)).getD (winnerSeat s.playerIndex s.numPlayers s.trick) [] ++
            s.deckCards)
      else
        s.taken.set (winnerSeat s.playerIndex s.numPlayers s.trick)
          (s.taken.getD (winnerSeat s.playerIndex s.numPlayers s.trick) [] ++ s.trick)) := by
    simp [trickWinner, ht]
  have hdeck : (trickWinner s).deckCards =
      (if kittyAwarded s = true then [] else s.deckCards) := by
    simp [trickWinner, ht]
  refine ⟨?_, ?_, hdeck⟩
  · rw [htaken]
    by_cases hk : kittyAwarded s = true
    · rw [if_pos hk]
      rw [if_pos hk]
      rw [h1, List.set_set]
      exact List.getElem?_set_eq_of_lt _ hw
    · rw [if_neg hk]
      rw [if_neg hk]
      rw [List.append_nil]
      exact List.getElem?_set_eq_of_lt _ hw
  · intro j hj
    rw [htaken]
    by_cases hk : kittyAwarded s = true
    · rw [if_pos hk, List.set_set]
      exact List.getElem?_set_ne (fun h => hj h.symm)
    · rw [if_neg hk]
      exact List.getElem?_set_ne (fun h => hj h.symm)

/-- Claim C3: with a non-empty deck remainder, the kitty goes to the trick
winner on any trick under the first policy, and on a trick containing a heart
under the heart policy (a heartless trick leaves the kitty in place); the
award empties the deck remainder, and once the remainder is empty no later
trick can award anything again. -/
theorem kitty_award_policy (s : HeartsState)
    (ht : s.trick ≠ []) (hd : s.deckCards ≠ [])
    (hn : 0 < s.numPlayers) (htl : s.taken.length = s.numPlayers) :
    (s.kitty = KittyOpt.first →
      (trickWinner s).deckCards = [] ∧
      (trickWinner s).taken[winnerSeat s.playerIndex s.numPlayers s.trick]? =
        some ((s.taken.getD (winnerSeat s.playerIndex s.numPlayers s.trick) [] ++ s.trick) ++
          s.deckCards)) ∧
    (s.kitty = KittyOpt.heart → s.trick.any (fun c => decide (c.suit = Suit.H)) = true →
      (trickWinner s).deckCards = [] ∧
      (trickWinner s).taken[winnerSeat s.playerIndex s.numPlayers s.trick]? =
        some ((s.taken.getD (winnerSeat s.playerIndex s.numPlayers s.trick) [] ++ s.trick) ++
          s.deckCards)) ∧
    (s.kitty = KittyOpt.heart → s.trick.any (fun c => decide (c.suit = Suit.H)) = false →
      (trickWinner s).deckCards = s.deckCards ∧
      (trickWinner s).taken[winnerSeat s.playerIndex s.numPlayers s.trick]? =
        some (s.taken.getD (winnerSeat s.playerIndex s.numPlayers s.trick) [] ++ s.trick)) ∧
    (∀ s2 : HeartsState, s2.deckCards = [] → (trickWinner s2).deckCards = []) := by
  have base := trickWinner_taken_winner s ht hn htl
  refine ⟨?_, ?_, ?_, ?_⟩
  · intro hfirst
    have hk : kittyAwarded s = true := by
      simp [kittyAwarded, hd, hfirst]
    exact ⟨by simp [base.2.2, hk], by simpa [hk] using base.1⟩
  · intro hheart hany
    have hk : kittyAwarded s = true := by
      simp [kittyAwarded, hd, hany]
    exact ⟨by simp [base.2.2, hk], by simpa [hk] using base.1⟩
  · intro hheart hany
    have hk : kittyAwarded s = false := by
      simp [kittyAwarded, hheart, hany]
    exact ⟨by simp [base.2.2, hk], by simpa [hk] using base.1⟩
  · intro s2 h2
    by_cases ht2 : s2.trick = []
    · simp [trickWinner, ht2, h2]
    · simp [trickWinner, ht2, h2, kittyAwarded]

/-- Concrete two-player state used in the claim C3 witness: the heart kitty
policy, one card left in the deck, and a trick led with a heart. -/
def kittyState : HeartsState :=
  { trick := [⟨5, Suit.H⟩, ⟨2, Suit.C⟩], playerIndex := 1, numPlayers := 2,
    taken := [[], []], deckCards := [⟨3, Suit.C⟩], kitty := KittyOpt.heart,
    heartsBroken := true, breakers := [] }

/-- Witness for claim C3: under the heart policy, a trick containing a heart
collects the kitty into the winner's pile and empties the deck remainder. -/
theorem kitty_award_policy_witness :
    (trickWinner kittyState).deckCards = [] ∧
    (trickWinner kittyState).taken[winnerSeat kittyState.playerIndex kittyState.numPlayers
        kittyState.trick]? =
      some ((kittyState.taken.getD (winnerSeat kittyState.playerIndex kittyState.numPlayers
        kittyState.trick) [] ++ kittyState.trick) ++ kittyState.deckCards) :=
  (kitty_award_policy kittyState (by decide) (by decide) (by decide) rfl).2.1 rfl (by decide)

/-- Claim C5: the winning card of a completed trick is of the suit led and of
maximal rank among the led-suit cards (an off-suit card never wins); the trick
position holding the winning card determines the winner seat, which is the
seat to act next; and the whole trick (plus the kitty when awarded) joins the
winner's taken pile, all other piles staying untouched. -/
theorem trick_winner_spec (s : HeartsState) (t0 : Card) (rest : List Card)
    (ht : s.trick = t0 :: rest) (hn : 0 < s.numPlayers) (htl : s.taken.length = s.numPlayers) :
    (winningCardOf s.trick).suit = t0.suit ∧
    (∀ c ∈ s.trick, c.suit = t0.suit → c.rank ≤ (winningCardOf s.trick).rank) ∧
    s.trick[trickCardIndex s.trick]? = some (winningCardOf s.trick) ∧
    nextLeader (trickWinner s) =
      seatOfTrickCard s.playerIndex s.numPlayers (trickCardIndex s.trick) ∧
    (trickWinner s).taken[winnerSeat s.playerIndex s.numPlayers s.trick]? =
      some ((s.taken.getD (winnerSeat s.playerIndex s.numPlayers s.trick) [] ++ s.trick) ++
        (if kittyAwarded s = true then s.deckCards else [])) ∧
    (∀ j : Nat, j ≠ winnerSeat s.playerIndex s.numPlayers s.trick →
      (trickWinner s).taken[j]? = s.taken[j]?) := by
  have htne : s.trick ≠ [] := by
    rw [ht]
    exact List.cons_ne_nil _ _
  have hbase := trickWinner_taken_winner s htne hn htl
  refine ⟨?_, ?_, ?_, ?_, hbase.1, hbase.2.1⟩
  · rw [ht]
    exact winningCardOf_suit t0 rest
  · intro c hc hsuit
    rw [ht] at hc ⊢
    exact winningCardOf_max t0 rest c hc hsuit
  · rw [ht]
    exact firstIndexOf_getElem? _ _ (winningCardOf_mem t0 rest)
  · have hpi := trickWinner_playerIndex s htne
    have hwlt : winnerSeat s.playerIndex s.numPlayers s.trick < s.numPlayers :=
      winnerSeat_lt _ _ _ hn
    rw [nextLeader, hpi.1, hpi.2]
    have e1 : ((winnerSeat s.playerIndex s.numPlayers s.trick : Int) - 1 + 1) =
        (winnerSeat s.playerIndex s.numPlayers s.trick : Int) := by
      ring
    rw [e1, Int.emod_eq_of_lt (by exact_mod_cast Nat.zero_le _) (by exact_mod_cast hwlt)]
    simp [winnerSeat]

/-- Concrete four-player trick used in the claim C5 witness: five of hearts
led, then king of hearts, two of hearts, queen of spades.  The king of hearts
wins (the queen of spades is off suit) and its seat, seat one, acts next. -/
def trickState : HeartsState :=
  { trick := [⟨5, Suit.H⟩, ⟨13, Suit.H⟩, ⟨2, Suit.H⟩, qs], playerIndex := 3, numPlayers := 4,
    taken := [[], [], [], []], deckCards := [], kitty := KittyOpt.noKitty,
    heartsBroken := true, breakers := [] }

/-- Witness for claim C5 at the trick of the claim text: the winner position
holds the king of hearts and the next seat to act is the one that played it. -/
theorem trick_winner_spec_witness :
    trickState.trick[trickCardIndex trickState.trick]? = some (winningCardOf trickState.trick) ∧
    nextLeader (trickWinner trickState) =
      seatOfTrickCard trickState.playerIndex trickState.numPlayers
        (trickCardIndex trickState.trick) ∧
    winningCardOf trickState.trick = ⟨13, Suit.H⟩ ∧
    seatOfTrickCard trickState.playerIndex trickState.numPlayers
      (trickCardIndex trickState.trick) = 1 := by
  have h := trick_winner_spec trickState ⟨5, Suit.H⟩ [⟨13, Suit.H⟩, ⟨2, Suit.H⟩, qs] rfl
    (by decide) rfl
  exact ⟨h.2.2.1, h.2.2.2.1, by decide, by decide⟩

/-- Named errors reported by do_play through player.error: the possession
check (line 460), the follow-suit check (line 467), the joker-lead check
(line 479) and the heart-lead check (line 482). -/
inductive PlayError where
  | cardNotHeld
  | suitNotFollowed
  | jokerLead
  | heartLead
deriving DecidableEq

/-- Outcome of a play attempt: an error with the state untouched, or no error
with the card shifted from the hand to the trick. -/
structure PlayResult where
  error : Option PlayError
  hand : List Card
  trick : List Card
deriving DecidableEq

/-- The playable list of do_play lines 472-477: the hand, minus the jokers
when jokers-follow is set, minus the hearts when hearts are not broken. -/
def playableLead (hand : List Card) (jokersFollow heartsBroken : Bool) : List Card :=
  let p1 := if jokersFollow = true then hand.filter (fun c => decide (c.rank ≠ 0)) else hand
  if heartsBroken = true then p1 else p1.filter (fun c => decide (c.suit ≠ Suit.H))

/-- Hearts.do_play lines 459-485 for a syntactically valid card in the trick
phase: reject a card not in the hand; on a non-empty trick reject an off-suit
card while the hand can follow suit; on a lead reject a joker when
jokers-follow is set and an alternative exists, and reject a heart while
hearts are not broken and an alternative exists; otherwise shift the card
from the hand to the trick (Hand.shift of the cards library, modelled from
the spec as remove-first-occurrence plus append). -/
def doPlay (hand trick : List Card) (jokersFollow heartsBroken : Bool) (c : Card) : PlayResult :=
  if ¬ c ∈ hand then ⟨some PlayError.cardNotHeld, hand, trick⟩
  else
    match trick with
    | t0 :: _ =>
      if c.suit ≠ t0.suit ∧ hand.any (fun k => decide (k.suit = t0.suit)) = true then
        ⟨some PlayError.suitNotFollowed, hand, trick⟩
      else
        ⟨none, hand.erase c, trick ++ [c]⟩
    | [] =>
      if c.rank = 0 ∧ jokersFollow = true ∧ playableLead hand jokersFollow heartsBroken ≠ [] then
        ⟨some PlayError.jokerLead, hand, trick⟩
      else if c.suit = Suit.H ∧ heartsBroken = false ∧
          playableLead hand jokersFollow heartsBroken ≠ [] then
        ⟨some PlayError.heartLead, hand, trick⟩
      else
        ⟨none, hand.erase c, trick ++ [c]⟩

/-- The playable list of a lead with hearts unbroken is empty exactly when
every card of the hand is a heart or an excluded joker. -/
lemma playableLead_nil_iff (hand : List Card) (jf : Bool) :
    playableLead hand jf false = [] ↔
      ∀ k ∈ hand, k.suit = Suit.H ∨ (jf = true ∧ k.rank = 0) := by
  cases jf with
  | false =>
    simp [playableLead, List.filter_eq_nil_iff]
  | true =>
    simp [playableLead, List.filter_filter, List.filter_eq_nil_iff]
    constructor
    · intro h k hk
      by_cases hs : k.suit = Suit.H
      · exact Or.inl hs
      · exact Or.inr (h k hk hs)
    · intro h k hk h0
      rcases h k hk with h' | h'
      · exact absurd h' h0
      · exact h'

/-- The ace of hearts. -/
def aceH : Card := ⟨14, Suit.H⟩

/-- A joker of clubs (rank X, added to the deck by the jokers extras
policy). -/
def jokerC : Card := ⟨0, Suit.C⟩

/-- Claim C6 counterexample: jokers-follow set, hearts not broken, hand
holding the ace of hearts and a club joker.  The hand contains a non-heart
card, so the claim demands rejection of the heart lead, yet the play is
accepted: the no-alternative exemption is computed on the hand with jokers
and hearts filtered out, which is empty. -/
theorem heart_lead_rejection_counterexample :
    (doPlay [aceH, jokerC] [] true false aceH).error = none ∧
    jokerC ∈ [aceH, jokerC] ∧ jokerC.suit ≠ Suit.H := by
  decide

/-- Claim C6 (amended): leading a heart (of non-joker rank) with hearts not
broken is rejected without mutating hand or trick exactly when the playable
list -- the hand minus excluded jokers minus hearts -- is non-empty, and
accepted otherwise; that list is empty exactly when every card in the hand is
a heart or an excluded joker; a lead of any non-heart non-joker card in the
hand is always accepted, moving the card from hand to trick; and with hearts
broken the heart lead is accepted. -/
theorem heart_lead_rejection_amended (hand : List Card) (jf : Bool) (c : Card)
    (hc : c ∈ hand) (hH : c.suit = Suit.H) (hr : c.rank ≠ 0) :
    (playableLead hand jf false ≠ [] →
      doPlay hand [] jf false c = ⟨some PlayError.heartLead, hand, []⟩) ∧
    (playableLead hand jf false = [] →
      doPlay hand [] jf false c = ⟨none, hand.erase c, [c]⟩) ∧
    (playableLead hand jf false = [] ↔
      ∀ k ∈ hand, k.suit = Suit.H ∨ (jf = true ∧ k.rank = 0)) ∧
    (∀ d : Card, d ∈ hand → d.suit ≠ Suit.H → d.rank ≠ 0 →
      doPlay hand [] jf false d = ⟨none, hand.erase d, [d]⟩) ∧
    doPlay hand [] jf true c = ⟨none, hand.erase c, [c]⟩ := by
  refine ⟨?_, ?_, playableLead_nil_iff hand jf, ?_, ?_⟩
  · intro hne
    unfold doPlay
    rw [if_neg (not_not_intro hc)]
    rw [if_neg (fun h => hr h.1), if_pos ⟨hH, rfl, hne⟩]
  · intro hnil
    unfold doPlay
    rw [if_neg (not_not_intro hc)]
    rw [if_neg (fun h => hr h.1), if_neg (fun h => h.2.2 hnil)]
    rfl
  · intro d hd hdH hdr
    unfold doPlay
    rw [if_neg (not_not_intro hd)]
    rw [if_neg (fun h => hdr h.1), if_neg (fun h => hdH h.1)]
    rfl
  · unfold doPlay
    rw [if_neg (not_not_intro hc)]
    rw [if_neg (fun h => hr h.1), if_neg (fun h => absurd h.2.1 (by decide))]
    rfl

/-- Witness for claim C6 at the hand of the claim text: with hearts not
broken and the hand of ace of hearts and two of clubs, the ace of hearts is
rejected without mutation and the two of clubs is accepted; with hearts
broken the ace of hearts is accepted. -/
theorem heart_lead_rejection_witness :
    doPlay [aceH, twoC] [] false false aceH = ⟨some PlayError.heartLead, [aceH, twoC], []⟩ ∧
    doPlay [aceH, twoC] [] false false twoC = ⟨none, [aceH], [twoC]⟩ ∧
    doPlay [aceH, twoC] [] false true aceH = ⟨none, [twoC], [aceH]⟩ := by
  have h := heart_lead_rejection_amended [aceH, twoC] false aceH (by decide) rfl (by decide)
  exact ⟨h.1 (by decide), h.2.2.2.1 twoC (by decide) (by decide) (by decide), h.2.2.2.2⟩

/-- Claim C10: with jokers-follow set, hearts not broken, and every card of
the leader's hand a heart or a joker, the playable list is empty and any card
of the hand -- heart or joker -- is accepted as a lead. -/
theorem joker_heart_hand_lead (hand : List Card) (c : Card) (hc : c ∈ hand)
    (hall : ∀ k ∈ hand, k.suit = Suit.H ∨ k.rank = 0) :
    playableLead hand true false = [] ∧
    doPlay hand [] true false c = ⟨none, hand.erase c, [c]⟩ := by
  have hpl : playableLead hand true false = [] :=
    (playableLead_nil_iff hand true).mpr
      (fun k hk => (hall k hk).imp id (fun h => ⟨rfl, h⟩))
  refine ⟨hpl, ?_⟩
  unfold doPlay
  rw [if_neg (not_not_intro hc)]
  rw [if_neg (fun h => h.2.2 hpl), if_neg (fun h => h.2.2 hpl)]
  rfl

/-- Witness for claim C10: a hand of ace of hearts plus a club joker accepts
the heart lead. -/
theorem joker_heart_hand_lead_witness :
    playableLead [aceH, jokerC] true false = [] ∧
    doPlay [aceH, jokerC] [] true false aceH = ⟨none, [jokerC], [aceH]⟩ := by
  have h := joker_heart_hand_lead [aceH, jokerC] aceH (by decide) (by decide)
  exact ⟨h.1, h.2⟩

/-- The pass-direction alias table pass_aliases of the Hearts class. -/
def passAliasLookup (s : String) : String :=
  if s = "l" then "left"
  else if s = "r" then "right"
  else if s = "rl" then "right-left"
  else if s = "lr" then "left-right"
  else if s = "@" then "rot-left"
  else if s = "c" then "central"
  else if s = "d" then "dealer"
  else if s = "n" then "not"
  else if s = "s" then "scatter"
  else s

/-- The valid-direction list computed at the top of Hearts.dealers_choice
(lines 376-378).  For four or six players the full tuple is used; for any
other player count the source executes the line valid_dirs = valid[:-1],
which reads the undefined name valid and raises NameError -- modelled as the
error case of Except.  Player counts 1 through 5 are reachable (one human
plus zero to four easy bots), so five players with pass-dir dealer crashes at
the first activation of the generator. -/
def dealersChoiceValidDirs (numPlayers : Nat) : Except String (List String) :=
  if numPlayers = 4 ∨ numPlayers = 6 then
    Except.ok ["left", "right", "not", "center", "scatter", "across"]
  else
    Except.error ("NameError: the name valid is not defined")

/-- The inner validation loop of dealers_choice lines 386-392: an answer is
accepted when its canonical form is among the valid directions; otherwise the
dealer gets an error message and is asked again. -/
def dealersChoiceAccepts (validDirs : List String) (answer : String) : Bool :=
  validDirs.contains (passAliasLookup answer)

/-- Claim C7 (code bug): for the reachable player counts outside four and six
the valid-direction computation itself fails fatally with NameError instead
of recoverably rejecting out-of-set answers, while for four players the
validation loop does accept across and reject garbage recoverably. -/
theorem dealers_choice_name_error :
    dealersChoiceValidDirs 5 = Except.error ("NameError: the name valid is not defined") ∧
    dealersChoiceValidDirs 3 = Except.error ("NameError: the name valid is not defined") ∧
    dealersChoiceValidDirs 4 =
      Except.ok ["left", "right", "not", "center", "scatter", "across"] ∧
    dealersChoiceAccepts ["left", "right", "not", "center", "scatter", "across"] "across" =
      true ∧
    dealersChoiceAccepts ["left", "right", "not", "center", "scatter", "across"] "sideways" =
      false :=
  ⟨rfl, rfl, rfl, rfl, rfl⟩

end HeartsGame
